import Mathlib

/-!
# Verification of the mkdockyard cache synchronization engine

Shallow embedding of `src/mkdockyard/main.py`: the fingerprint function
(SHA-256 over `url + ref`), the capability probe (`get_git_version` and the
`git_supports_revision` test), the snapshot fetcher (`clone_git_repo`), the
synchronizer (`make_dockyard` folded over the configured entries, as
`on_config` does), and the pruner (`prune_cache` and the threshold test in
`on_config`).

Filesystem state is a list of existing directory paths, each path a list of
segments.  External `git` invocations are modelled as a trace of `GitStep`s
together with an oracle saying which invocations succeed.
-/

namespace Mkdockyard

/-! ## SHA-256, modelling Python's `hashlib.sha256(...).hexdigest()`

Words are `Nat` reduced mod `2 ^ 32` wherever overflow matters. -/

/-- Right rotation of a 32-bit word. -/
def rotr (n x : Nat) : Nat :=
  ((x >>> n) ||| (x <<< (32 - n))) % 2 ^ 32

/-- The SHA-256 round constants, in decimal. -/
def shaK : List Nat :=
  [1116352408, 1899447441, 3049323471, 3921009573, 961987163,
   1508970993, 2453635748, 2870763221, 3624381080, 310598401,
   607225278, 1426881987, 1925078388, 2162078206, 2614888103,
   3248222580, 3835390401, 4022224774, 264347078, 604807628,
   770255983, 1249150122, 1555081692, 1996064986, 2554220882,
   2821834349, 2952996808, 3210313671, 3336571891, 3584528711,
   113926993, 338241895, 666307205, 773529912, 1294757372,
   1396182291, 1695183700, 1986661051, 2177026350, 2456956037,
   2730485921, 2820302411, 3259730800, 3345764771, 3516065817,
   3600352804, 4094571909, 275423344, 430227734, 506948616,
   659060556, 883997877, 958139571, 1322822218, 1537002063,
   1747873779, 1955562222, 2024104815, 2227730452, 2361852424,
   2428436474, 2756734187, 3204031479, 3329325298]

/-- The SHA-256 initial hash value, in decimal. -/
def shaH0 : List Nat :=
  [1779033703, 3144134277, 1013904242, 2773480762,
   1359893119, 2600822924, 528734635, 1541459225]

/-- Small sigma 0 message-schedule function. -/
def ssig0 (x : Nat) : Nat := (rotr 7 x) ^^^ (rotr 18 x) ^^^ (x >>> 3)

/-- Small sigma 1 message-schedule function. -/
def ssig1 (x : Nat) : Nat := (rotr 17 x) ^^^ (rotr 19 x) ^^^ (x >>> 10)

/-- Big sigma 0 compression function. -/
def bsig0 (x : Nat) : Nat := (rotr 2 x) ^^^ (rotr 13 x) ^^^ (rotr 22 x)

/-- Big sigma 1 compression function. -/
def bsig1 (x : Nat) : Nat := (rotr 6 x) ^^^ (rotr 11 x) ^^^ (rotr 25 x)

/-- Choice function. -/
def shaCh (x y z : Nat) : Nat := (x &&& y) ^^^ ((x ^^^ 0xffffffff) &&& z)

/-- Majority function. -/
def shaMaj (x y z : Nat) : Nat := (x &&& y) ^^^ (x &&& z) ^^^ (y &&& z)

/-- Big-endian bytes of a `Nat`, `k` bytes wide. -/
def beBytes (k n : Nat) : List Nat :=
  match k with
  | 0 => []
  | k + 1 => beBytes k (n / 256) ++ [n % 256]

/-- SHA-256 message padding: append `0x80`, zero bytes, and the 64-bit
big-endian bit length, so the total length is a multiple of 64 bytes. -/
def shaPad (msg : List Nat) : List Nat :=
  let l := msg.length
  let padLen := (55 + 64 - l % 64) % 64
  msg ++ [0x80] ++ List.replicate padLen 0 ++ beBytes 8 (l * 8)

/-- Split a byte list into 32-bit big-endian words. -/
def toWords : List Nat → List Nat
  | b0 :: b1 :: b2 :: b3 :: rest =>
      (((b0 * 256 + b1) * 256 + b2) * 256 + b3) :: toWords rest
  | _ => []

/-- Extend the first 16 words of a block to the 64-word message schedule.
The schedule is built front-first in reverse order (`ws` holds the most
recent word first), so `w[i-2]`, `w[i-7]`, `w[i-15]`, `w[i-16]` are the
entries at positions 1, 6, 14, 15. -/
def extendSchedule : Nat → List Nat → List Nat
  | 0, ws => ws.reverse
  | n + 1, ws =>
      let w := (ssig1 (ws.getD 1 0) + ws.getD 6 0 + ssig0 (ws.getD 14 0) +
        ws.getD 15 0) % 2 ^ 32
      extendSchedule n (w :: ws)

/-- One round of the SHA-256 compression function. -/
def shaRound (state : List Nat) (kw : Nat × Nat) : List Nat :=
  match state with
  | [a, b, c, d, e, f, g, h] =>
      let t1 := (h + bsig1 e + shaCh e f g + kw.1 + kw.2) % 2 ^ 32
      let t2 := (bsig0 a + shaMaj a b c) % 2 ^ 32
      [(t1 + t2) % 2 ^ 32, a, b, c, (d + t1) % 2 ^ 32, e, f, g]
  | s => s

/-- Compress one 16-word block into the hash state. -/
def shaBlock (h : List Nat) (block : List Nat) : List Nat :=
  let w := extendSchedule 48 block.reverse
  let s := (shaK.zip w).foldl shaRound h
  (h.zip s).map fun p => (p.1 + p.2) % 2 ^ 32

/-- Fold the compression function over all 16-word chunks. -/
def shaChunks (h : List Nat) : List Nat → List Nat
  | w0 :: w1 :: w2 :: w3 :: w4 :: w5 :: w6 :: w7 ::
    w8 :: w9 :: w10 :: w11 :: w12 :: w13 :: w14 :: w15 :: rest =>
      shaChunks (shaBlock h
        [w0, w1, w2, w3, w4, w5, w6, w7, w8, w9, w10, w11, w12, w13, w14, w15])
        rest
  | _ => h

/-- SHA-256 digest of a byte list, as eight 32-bit words. -/
def sha256Words (msg : List Nat) : List Nat :=
  shaChunks shaH0 (toWords (shaPad msg))

/-- Hex character for a value below 16. -/
def hexChar (n : Nat) : Char :=
  "0123456789abcdef".toList.getD n '0'

/-- Two-character lowercase hex encoding of one byte. -/
def hexByte (n : Nat) : List Char :=
  [hexChar (n / 16 % 16), hexChar (n % 16)]

/-- UTF-8 encoding of one code point, modelling Python's `str.encode()`. -/
def utf8Char (c : Nat) : List Nat :=
  if c < 0x80 then [c]
  else if c < 0x800 then [0xc0 ||| (c >>> 6), 0x80 ||| (c &&& 0x3f)]
  else if c < 0x10000 then
    [0xe0 ||| (c >>> 12), 0x80 ||| ((c >>> 6) &&& 0x3f), 0x80 ||| (c &&& 0x3f)]
  else
    [0xf0 ||| (c >>> 18), 0x80 ||| ((c >>> 12) &&& 0x3f),
     0x80 ||| ((c >>> 6) &&& 0x3f), 0x80 ||| (c &&& 0x3f)]

/-- UTF-8 bytes of a string. -/
def strBytes (s : String) : List Nat :=
  (s.toList.map fun c => utf8Char c.toNat).flatten

/-- `hashlib.sha256(s.encode()).hexdigest()`: the 64-character lowercase hex
digest of the UTF-8 encoding of `s`. -/
def sha256hex (s : String) : String :=
  String.mk ((sha256Words (strBytes s)).map fun w =>
    (beBytes 4 w).map hexByte |>.flatten).flatten

/-! ## Paths and filesystem state

A path is a list of segments (the parts of a `pathlib.Path`); the filesystem
is the list of directories that exist.  Renames and directory creations are
the only mutations the plugin performs besides pruning. -/

/-- A filesystem path, as its list of segments. -/
abbrev FsPath := List String

/-- The set of existing directories, as a list of paths. -/
abbrev FS := List FsPath

/-- `Path.exists()`: membership in the directory listing. -/
def pexists (fs : FS) (p : FsPath) : Bool := fs.contains p

/-- If `p` is an immediate child of `d`, its final segment; otherwise none. -/
def childName (d p : FsPath) : Option String :=
  match p.drop d.length with
  | [c] => if p.take d.length == d then some c else none
  | _ => none

/-- `os.listdir(d)`: the names of the immediate children of `d`. -/
def listdir (fs : FS) (d : FsPath) : List String :=
  fs.filterMap (childName d)

/-- `os.rename(src, dst)`: every path at or below `src` moves below `dst`. -/
def renameFS (fs : FS) (src dst : FsPath) : FS :=
  fs.map fun p => if p.take src.length == src then dst ++ p.drop src.length else p

/-- `Path.is_relative_to(base)`: `base` is a (not necessarily strict) segment
prefix of the path, exactly as `pathlib` computes it. -/
def is_relative_to (p base : FsPath) : Bool := p.take base.length == base

/-! ## Configuration entries and clone information -/

/-- One entry of the `repos` configuration list (`_Repos`). -/
structure Repo where
  name : String
  url : String
  ref : String
  deriving DecidableEq

/-- The `CloneInformation` dataclass of the source. -/
structure CloneInformation where
  name : String
  url : String
  ref : String
  hashed_dir : FsPath
  deriving DecidableEq

/-- The fingerprint of an entry:
`hashlib.sha256((url + ref).encode()).hexdigest()` from
`build_clone_information`. -/
def fingerprint (url ref : String) : String :=
  sha256hex (url ++ ref)

/-- `MkdockyardPlugin.build_clone_information`: for each repo, the bucket
directory is `cache_dir / fingerprint(url, ref)`. -/
def build_clone_information (repos : List Repo) (cache_dir : FsPath) :
    List CloneInformation :=
  repos.map fun r => ⟨r.name, r.url, r.ref, cache_dir ++ [fingerprint r.url r.ref]⟩

/-! ## Capability probe -/

/-- Failure modes of the capability probe (spec taxonomy): the subprocess
cannot be invoked, or its output does not parse as `major.minor`. -/
inductive ProbeError where
  | toolUnavailable
  | versionUnparseable
  deriving DecidableEq

/-- Split a character list at every occurrence of `sep`, keeping empty
pieces, as Python's `str.split(sep)` does. -/
def splitChars (sep : Char) : List Char → List (List Char)
  | [] => [[]]
  | c :: rest =>
    let r := splitChars sep rest
    if c = sep then [] :: r
    else
      match r with
      | g :: gs => (c :: g) :: gs
      | [] => [[c]]

/-- Python's `str.split(sep)` for a one-character separator. -/
def pySplit (s : String) (sep : Char) : List String :=
  (splitChars sep s.toList).map fun cs => String.mk cs

/-- Python's `int(s)` on the decimal strings relevant here: all-digit
strings parse to their value, anything else raises `ValueError` (`none`). -/
def pyInt (s : String) : Option Nat :=
  match s.toList with
  | [] => none
  | cs =>
    if cs.all (fun c => c.isDigit) then
      some (cs.foldl (fun n c => n * 10 + (c.toNat - 48)) 0)
    else none

/-- The parsing part of `get_git_version`:
`stdout.split(" ")[2]`, then `split(".")`, then `int()` on the first two
components.  Any index or conversion failure yields `none`. -/
def parse_git_version (stdout : String) : Option (Nat × Nat) :=
  match (pySplit stdout ' ').get? 2 with
  | none => none
  | some version_number =>
    let version_components := pySplit version_number '.'
    match version_components.get? 0, version_components.get? 1 with
    | some c0, some c1 =>
      match pyInt c0, pyInt c1 with
      | some major, some minor => some (major, minor)
      | _, _ => none
    | _, _ => none

/-- `MkdockyardPlugin.get_git_version`: the probe input is the captured
stdout of `git --version`, or `none` when the tool cannot be invoked. -/
def get_git_version (stdout : Option String) : Except ProbeError (Nat × Nat) :=
  match stdout with
  | none => .error .toolUnavailable
  | some s =>
    match parse_git_version s with
    | none => .error .versionUnparseable
    | some v => .ok v

/-- The version test computed in `on_config`:
`(major == 2 and minor >= 49) or major > 2`. -/
def git_supports_revision (major minor : Nat) : Bool :=
  (major == 2 && decide (49 ≤ minor)) || decide (2 < major)

/-! ## Snapshot fetcher -/

/-- One external invocation performed by `clone_git_repo` (with the
`os.makedirs` call of the legacy branch included as a step). -/
inductive GitStep where
  | cloneRevision (url ref : String) (out : FsPath)
  | makedirs (out : FsPath)
  | gitInit (cwd : FsPath)
  | remoteAdd (url : String) (cwd : FsPath)
  | fetchOrigin (ref : String) (cwd : FsPath)
  | checkoutFetchHead (cwd : FsPath)
  deriving DecidableEq

/-- `MkdockyardPlugin.clone_git_repo`, as the sequence of invocations it
issues: one `git clone --depth=1 --revision=ref` when the flag is supported,
otherwise `os.makedirs` followed by the legacy `git init`, `git remote add
origin`, `git fetch --depth 1 origin ref`, `git checkout FETCH_HEAD`. -/
def clone_git_repo_steps (git_supports_revision : Bool) (url ref : String)
    (output_path : FsPath) : List GitStep :=
  if git_supports_revision then
    [.cloneRevision url ref output_path]
  else
    [.makedirs output_path, .gitInit output_path, .remoteAdd url output_path,
     .fetchOrigin ref output_path, .checkoutFetchHead output_path]

/-- Directory effect of one successful step: `git clone` and `os.makedirs`
create the destination (and its bucket parent); the other git commands do
not create tracked directories. -/
def apply_step (fs : FS) : GitStep → FS
  | .cloneRevision _ _ out => out :: out.dropLast :: fs
  | .makedirs out => out :: out.dropLast :: fs
  | _ => fs

/-- Run a sequence of invocations against a success oracle (the external
tool is a black box).  `subprocess.run(..., check=True)` raises on the first
failing invocation, so execution stops there; the directories already
created are kept.  Returns the filesystem, the overall success flag, and
the trace of invocations that were issued. -/
def run_steps (ok : GitStep → Bool) : FS → List GitStep → FS × Bool × List GitStep
  | fs, [] => (fs, true, [])
  | fs, s :: rest =>
    if ok s then
      let r := run_steps ok (apply_step fs s) rest
      (r.1, r.2.1, s :: r.2.2)
    else (fs, false, [s])

/-! ## Synchronizer -/

/-- Outcome of `make_dockyard` for one entry: the branch taken.  `cloned`
is the `return True` path; `renamed` and `reused` return `False`;
`fetchFailed` is a propagating `CalledProcessError`; `indexError` is the
uncaught `IndexError` from `os.listdir(hashed_dir)[0]` on an empty bucket. -/
inductive MDStatus where
  | cloned
  | renamed
  | reused
  | fetchFailed
  | indexError
  deriving DecidableEq

/-- Result of one `make_dockyard` call: resulting filesystem, branch taken,
and the external invocations issued. -/
structure StepOut where
  fs : FS
  status : MDStatus
  trace : List GitStep
  deriving DecidableEq

/-- `MkdockyardPlugin.make_dockyard`: clone when the bucket does not exist;
rename the bucket's first listed child when the bucket exists but
`bucket/name` does not; otherwise reuse with no I/O. -/
def make_dockyard (ok : GitStep → Bool) (git_supports_revision : Bool)
    (url ref : String) (hashed_dir : FsPath) (name : String) (fs : FS) : StepOut :=
  let output_path := hashed_dir ++ [name]
  if !(pexists fs hashed_dir) then
    let r := run_steps ok fs (clone_git_repo_steps git_supports_revision url ref output_path)
    if r.2.1 then ⟨r.1, .cloned, r.2.2⟩ else ⟨r.1, .fetchFailed, r.2.2⟩
  else if !(pexists fs output_path) then
    match listdir fs hashed_dir with
    | [] => ⟨fs, .indexError, []⟩
    | old_name :: _ => ⟨renameFS fs (hashed_dir ++ [old_name]) output_path, .renamed, []⟩
  else ⟨fs, .reused, []⟩

/-- Result of one synchronization pass over all entries. -/
structure SyncOut where
  fs : FS
  statuses : List MDStatus
  trace : List GitStep
  deriving DecidableEq

/-- The fan-out over entries in `on_config`.  The concurrent tasks operate
on disjoint buckets, so the pass is modelled as the fold of `make_dockyard`
over the entries in submission order. -/
def sync (ok : GitStep → Bool) (git_supports_revision : Bool) :
    List CloneInformation → FS → SyncOut
  | [], fs => ⟨fs, [], []⟩
  | ci :: rest, fs =>
    let o := make_dockyard ok git_supports_revision ci.url ci.ref ci.hashed_dir ci.name fs
    let s := sync ok git_supports_revision rest o.fs
    ⟨s.fs, o.status :: s.statuses, o.trace ++ s.trace⟩

/-! ## Pruner -/

/-- Result of `prune_cache`: the directories passed to `shutil.rmtree`, in
order, and whether the loop ran to completion (`ok = false` is the
`PluginError` raised when a candidate is not relative to the cache dir;
directories deleted before the error stay deleted). -/
structure PruneOut where
  deleted : List FsPath
  ok : Bool
  deriving DecidableEq

/-- `MkdockyardPlugin.prune_cache`: skip configured repos; for any other
cached repo, raise `PluginError` if it is not relative to `cache_dir`,
otherwise delete it recursively. -/
def prune_cache (configured_repos : List FsPath) (cached_repos : List FsPath)
    (cache_dir : FsPath) : PruneOut :=
  match cached_repos with
  | [] => ⟨[], true⟩
  | repo :: rest =>
    if configured_repos.contains repo then
      prune_cache configured_repos rest cache_dir
    else if !(is_relative_to repo cache_dir) then
      ⟨[], false⟩
    else
      let o := prune_cache configured_repos rest cache_dir
      ⟨repo :: o.deleted, o.ok⟩

/-! ## The `on_config` pipeline -/

/-- The environment of one run: the captured stdout of `git --version`
(`none` when git cannot be invoked), and the success oracle for the
external invocations. -/
structure Host where
  gitVersionStdout : Option String
  stepOk : GitStep → Bool

/-- Abnormal terminations of `on_config`: the probe failures, the
`ConfigurationError` wrapping a failed fetch, the uncaught `IndexError`
from the rename branch, and the pruner's `PluginError`. -/
inductive RunError where
  | toolUnavailable
  | versionUnparseable
  | fetchFailed
  | indexErrorUnhandled
  | pluginError
  deriving DecidableEq

deriving instance DecidableEq for Except

/-- Observable outcome of one `on_config` run: the paths appended to the
mkdocstrings `paths` option (or the error), the post-synchronization
filesystem, the trace of external git invocations, and the directories
deleted by the pruner. -/
structure RunOut where
  result : Except RunError (List FsPath)
  fs : FS
  trace : List GitStep
  pruned : List FsPath

/-- The prune policy tail of `on_config`: compute `cached_repos` from the
cache listing, `n_unused_in_cache = len(cached_repos) - len(configured_repos)`
and `cache_limit = len(configured_repos) * cache_limit_multiplier`, and run
`prune_cache` when `n_unused_in_cache > cache_limit`. -/
def prune_phase (cache_limit_multiplier : Int) (cache_dir : FsPath)
    (paths configured_repos : List FsPath) (s : SyncOut) : RunOut :=
  if (configured_repos.length : Int) * cache_limit_multiplier
      < ((listdir s.fs cache_dir).length : Int) - configured_repos.length then
    if (prune_cache configured_repos
        ((listdir s.fs cache_dir).map fun n => cache_dir ++ [n]) cache_dir).ok then
      ⟨.ok paths, s.fs, s.trace,
        (prune_cache configured_repos
          ((listdir s.fs cache_dir).map fun n => cache_dir ++ [n]) cache_dir).deleted⟩
    else
      ⟨.error .pluginError, s.fs, s.trace,
        (prune_cache configured_repos
          ((listdir s.fs cache_dir).map fun n => cache_dir ++ [n]) cache_dir).deleted⟩
  else ⟨.ok paths, s.fs, s.trace, []⟩

/-- `MkdockyardPlugin.on_config`: probe the git version, build the clone
information, synchronize every entry, append `str(info.hashed_dir)` to the
consumer's paths per completed entry, then apply the prune policy.  A failed
fetch surfaces as `ConfigurationError`, an empty-bucket rename as an
uncaught `IndexError`. -/
def on_config (host : Host) (repos : List Repo) (cache_limit_multiplier : Int)
    (cache_dir : FsPath) (fs : FS) : RunOut :=
  match get_git_version host.gitVersionStdout with
  | .error .toolUnavailable => ⟨.error .toolUnavailable, fs, [], []⟩
  | .error .versionUnparseable => ⟨.error .versionUnparseable, fs, [], []⟩
  | .ok (major, minor) =>
    if (sync host.stepOk (git_supports_revision major minor)
        (build_clone_information repos cache_dir) fs).statuses.contains .fetchFailed then
      ⟨.error .fetchFailed,
        (sync host.stepOk (git_supports_revision major minor)
          (build_clone_information repos cache_dir) fs).fs,
        (sync host.stepOk (git_supports_revision major minor)
          (build_clone_information repos cache_dir) fs).trace, []⟩
    else if (sync host.stepOk (git_supports_revision major minor)
        (build_clone_information repos cache_dir) fs).statuses.contains .indexError then
      ⟨.error .indexErrorUnhandled,
        (sync host.stepOk (git_supports_revision major minor)
          (build_clone_information repos cache_dir) fs).fs,
        (sync host.stepOk (git_supports_revision major minor)
          (build_clone_information repos cache_dir) fs).trace, []⟩
    else
      prune_phase cache_limit_multiplier cache_dir
        ((build_clone_information repos cache_dir).map fun ci => ci.hashed_dir)
        ((build_clone_information repos cache_dir).map fun ci => ci.hashed_dir)
        (sync host.stepOk (git_supports_revision major minor)
          (build_clone_information repos cache_dir) fs)

/-! ## Spec-side comparison definitions (named from the spec's words, for
refinement claims only) -/

/-- Modelled from the spec: a strict descendant of the cache root — relative
to it and not equal to it. -/
def specStrictDescendant (p base : FsPath) : Bool :=
  is_relative_to p base && !(p == base)

/-- Modelled from the spec: the unused set,
`entries_in(cache_root) - configured_paths_as_bucket_dirs`. -/
def spec_unused (fs : FS) (cache_dir : FsPath) (configured : List FsPath) :
    List FsPath :=
  ((listdir fs cache_dir).map fun n => cache_dir ++ [n]).filter
    fun p => !(configured.contains p)

/-- Modelled from the spec: the snapshot path of an entry,
`cache_root/fingerprint/name`. -/
def specSnapshotPath (ci : CloneInformation) : FsPath :=
  ci.hashed_dir ++ [ci.name]

/-- A small corpus of (url, ref) pairs with pairwise distinct
concatenations, for the collision-avoidance test. -/
def fingerprintCorpus : List (String × String) :=
  [("https://github.com/Textualize/textual.git", "main"),
   ("https://github.com/Textualize/textual.git", "v1.0.0"),
   ("https://github.com/squidfunk/mkdocs-material.git", "main"),
   ("https://example.com/repo.git", "501372027f3abc75561881e3803efc34098dabe1")]

/-! ## Basic lemmas about the filesystem model -/

theorem pexists_iff {fs : FS} {p : FsPath} : pexists fs p = true ↔ p ∈ fs := by
  simp [pexists]

theorem childName_eq_some {d p : FsPath} {c : String} :
    childName d p = some c ↔ p = d ++ [c] := by
  constructor
  · intro h
    unfold childName at h
    split at h
    · rename_i c' heq
      split at h
      · rename_i htake
        cases h
        have ht : p.take d.length = d := by simpa using htake
        calc p = p.take d.length ++ p.drop d.length := (List.take_append_drop _ p).symm
          _ = d ++ [c] := by rw [ht, heq]
      · exact absurd h (by simp)
    · exact absurd h (by simp)
  · intro h
    subst h
    unfold childName
    simp [List.drop_left, List.take_left]

theorem mem_listdir {fs : FS} {d : FsPath} {c : String} :
    c ∈ listdir fs d ↔ d ++ [c] ∈ fs := by
  unfold listdir
  rw [List.mem_filterMap]
  constructor
  · rintro ⟨p, hp, hc⟩
    rwa [childName_eq_some.mp hc] at hp
  · intro h
    exact ⟨d ++ [c], h, childName_eq_some.mpr rfl⟩

theorem mem_renameFS {fs : FS} {src dst : FsPath} {p : FsPath} (hp : p ∈ fs) :
    (if p.take src.length == src then dst ++ p.drop src.length else p)
      ∈ renameFS fs src dst :=
  List.mem_map_of_mem _ hp

theorem mem_renameFS_short {fs : FS} {src dst : FsPath} {p : FsPath}
    (hp : p ∈ fs) (hlen : p.length < src.length) : p ∈ renameFS fs src dst := by
  have h1 : p.take src.length = p := List.take_of_length_le (le_of_lt hlen)
  have h2 : (p == src) = false := by
    simp only [beq_eq_false_iff_ne, ne_eq]
    intro heq
    subst heq
    exact lt_irrefl _ hlen
  have := @mem_renameFS fs src dst p hp
  rwa [h1, h2, if_neg (by simp)] at this

theorem mem_renameFS_other {fs : FS} {src dst : FsPath} {p : FsPath}
    (hp : p ∈ fs) (hlen : p.length = src.length) (hne : p ≠ src) :
    p ∈ renameFS fs src dst := by
  have h1 : p.take src.length = p := List.take_of_length_le (le_of_eq hlen)
  have h2 : (p == src) = false := beq_eq_false_iff_ne.mpr hne
  have := @mem_renameFS fs src dst p hp
  rwa [h1, h2, if_neg (by simp)] at this

theorem mem_renameFS_src {fs : FS} {src dst : FsPath} (hp : src ∈ fs) :
    dst ∈ renameFS fs src dst := by
  have h1 : src.take src.length = src := List.take_of_length_le (le_refl _)
  have h3 : src.drop src.length = [] := by simp
  have := @mem_renameFS fs src dst src hp
  rw [h1, h3] at this
  simpa using this

/-! ## Lemmas about step execution -/

theorem apply_step_mem {fs : FS} {p : FsPath} (s : GitStep) (hp : p ∈ fs) :
    p ∈ apply_step fs s := by
  cases s <;> simp [apply_step, hp]

theorem run_steps_mem {ok : GitStep → Bool} {p : FsPath} :
    ∀ {steps : List GitStep} {fs : FS}, p ∈ fs → p ∈ (run_steps ok fs steps).1
  | [], _, hp => hp
  | s :: rest, fs, hp => by
    by_cases hok : ok s
    · simpa [run_steps, hok] using
        @run_steps_mem ok p rest (apply_step fs s) (apply_step_mem s hp)
    · simpa [run_steps, hok] using hp

theorem run_steps_success_all {ok : GitStep → Bool} :
    ∀ {steps : List GitStep} {fs : FS},
      (run_steps ok fs steps).2.1 = true → ∀ s ∈ steps, ok s = true
  | [], _, _, _, hs => absurd hs (List.not_mem_nil _)
  | s :: rest, fs, h, t, ht => by
    by_cases hok : ok s
    · rcases List.mem_cons.mp ht with h1 | h1
      · subst h1; exact hok
      · exact @run_steps_success_all ok rest (apply_step fs s)
          (by simpa [run_steps, hok] using h) t h1
    · simp [run_steps, hok] at h

theorem run_steps_cons_fs {ok : GitStep → Bool} {s : GitStep} {rest : List GitStep}
    {fs : FS} (h : ok s = true) :
    (run_steps ok fs (s :: rest)).1 = (run_steps ok (apply_step fs s) rest).1 := by
  simp [run_steps, h]

theorem run_steps_clone_mem {ok : GitStep → Bool} {g : Bool} {u r : String}
    {out : FsPath} {fs : FS}
    (h : (run_steps ok fs (clone_git_repo_steps g u r out)).2.1 = true) :
    out ∈ (run_steps ok fs (clone_git_repo_steps g u r out)).1 ∧
    out.dropLast ∈ (run_steps ok fs (clone_git_repo_steps g u r out)).1 := by
  have hall := run_steps_success_all h
  cases g
  · have e : clone_git_repo_steps false u r out =
        GitStep.makedirs out :: [.gitInit out, .remoteAdd u out,
          .fetchOrigin r out, .checkoutFetchHead out] := rfl
    have h1 : ok (.makedirs out) = true := hall _ (by rw [e]; exact List.mem_cons_self _ _)
    rw [e, run_steps_cons_fs h1]
    have hmem1 : out ∈ apply_step fs (.makedirs out) := by simp [apply_step]
    have hmem2 : out.dropLast ∈ apply_step fs (.makedirs out) := by simp [apply_step]
    exact ⟨run_steps_mem hmem1, run_steps_mem hmem2⟩
  · have e : clone_git_repo_steps true u r out =
        GitStep.cloneRevision u r out :: [] := rfl
    have h1 : ok (.cloneRevision u r out) = true :=
      hall _ (by rw [e]; exact List.mem_cons_self _ _)
    rw [e, run_steps_cons_fs h1]
    have hmem1 : out ∈ apply_step fs (.cloneRevision u r out) := by simp [apply_step]
    have hmem2 : out.dropLast ∈ apply_step fs (.cloneRevision u r out) := by
      simp [apply_step]
    exact ⟨run_steps_mem hmem1, run_steps_mem hmem2⟩

/-! ## Branch lemmas for `make_dockyard` -/

theorem make_dockyard_reuse {ok : GitStep → Bool} {g : Bool} {u r : String}
    {hashed_dir : FsPath} {name : String} {fs : FS}
    (hb : pexists fs hashed_dir = true)
    (ho : pexists fs (hashed_dir ++ [name]) = true) :
    make_dockyard ok g u r hashed_dir name fs = ⟨fs, .reused, []⟩ := by
  simp [make_dockyard, hb, ho]

theorem make_dockyard_rename {ok : GitStep → Bool} {g : Bool} {u r : String}
    {hashed_dir : FsPath} {name : String} {fs : FS} {old : String} {tl : List String}
    (hb : pexists fs hashed_dir = true)
    (ho : pexists fs (hashed_dir ++ [name]) = false)
    (hl : listdir fs hashed_dir = old :: tl) :
    make_dockyard ok g u r hashed_dir name fs =
      ⟨renameFS fs (hashed_dir ++ [old]) (hashed_dir ++ [name]), .renamed, []⟩ := by
  simp [make_dockyard, hb, ho, hl]

theorem make_dockyard_empty_bucket {ok : GitStep → Bool} {g : Bool} {u r : String}
    {hashed_dir : FsPath} {name : String} {fs : FS}
    (hb : pexists fs hashed_dir = true)
    (ho : pexists fs (hashed_dir ++ [name]) = false)
    (hl : listdir fs hashed_dir = []) :
    make_dockyard ok g u r hashed_dir name fs = ⟨fs, .indexError, []⟩ := by
  simp [make_dockyard, hb, ho, hl]

theorem make_dockyard_clone_fs {ok : GitStep → Bool} {g : Bool} {u r : String}
    {hashed_dir : FsPath} {name : String} {fs : FS}
    (hb : pexists fs hashed_dir = false) :
    (make_dockyard ok g u r hashed_dir name fs).fs
      = (run_steps ok fs (clone_git_repo_steps g u r (hashed_dir ++ [name]))).1 := by
  by_cases hs : (run_steps ok fs (clone_git_repo_steps g u r (hashed_dir ++ [name]))).2.1 <;>
    simp_all [make_dockyard, hb]

theorem make_dockyard_clone_status {ok : GitStep → Bool} {g : Bool} {u r : String}
    {hashed_dir : FsPath} {name : String} {fs : FS}
    (hb : pexists fs hashed_dir = false) :
    (make_dockyard ok g u r hashed_dir name fs).status
      = if (run_steps ok fs (clone_git_repo_steps g u r (hashed_dir ++ [name]))).2.1
        then MDStatus.cloned else MDStatus.fetchFailed := by
  by_cases hs : (run_steps ok fs (clone_git_repo_steps g u r (hashed_dir ++ [name]))).2.1 <;>
    simp_all [make_dockyard, hb]

theorem make_dockyard_preserves_bucket {ok : GitStep → Bool} {g : Bool} {u r : String}
    {hashed_dir : FsPath} {name : String} {fs : FS} {d : FsPath}
    (hlen : d.length ≤ hashed_dir.length) (hd : d ∈ fs) :
    d ∈ (make_dockyard ok g u r hashed_dir name fs).fs := by
  by_cases hb : pexists fs hashed_dir
  · by_cases ho : pexists fs (hashed_dir ++ [name])
    · rw [make_dockyard_reuse hb ho]
      exact hd
    · have ho' : pexists fs (hashed_dir ++ [name]) = false := by simpa using ho
      cases hl : listdir fs hashed_dir with
      | nil =>
        rw [make_dockyard_empty_bucket hb ho' hl]
        exact hd
      | cons old tl =>
        rw [make_dockyard_rename hb ho' hl]
        exact mem_renameFS_short hd (by simp; omega)
  · rw [make_dockyard_clone_fs (by simpa using hb)]
    exact run_steps_mem hd

theorem make_dockyard_preserves_child {ok : GitStep → Bool} {g : Bool} {u r : String}
    {hashed_dir : FsPath} {name : String} {fs : FS} {d : FsPath} {c : String}
    (hlen : d.length = hashed_dir.length) (hc : d ++ [c] ∈ fs) :
    ∃ c2, d ++ [c2] ∈ (make_dockyard ok g u r hashed_dir name fs).fs := by
  by_cases hb : pexists fs hashed_dir
  · by_cases ho : pexists fs (hashed_dir ++ [name])
    · rw [make_dockyard_reuse hb ho]
      exact ⟨c, hc⟩
    · have ho' : pexists fs (hashed_dir ++ [name]) = false := by simpa using ho
      cases hl : listdir fs hashed_dir with
      | nil =>
        rw [make_dockyard_empty_bucket hb ho' hl]
        exact ⟨c, hc⟩
      | cons old tl =>
        rw [make_dockyard_rename hb ho' hl]
        by_cases heq : d ++ [c] = hashed_dir ++ [old]
        · have hda : d = hashed_dir :=
            (List.append_inj heq (by rw [hlen])).1
          refine ⟨name, ?_⟩
          rw [hda]
          exact mem_renameFS_src (heq ▸ hc)
        · exact ⟨c, mem_renameFS_other hc (by simp [hlen]) heq⟩
  · rw [make_dockyard_clone_fs (by simpa using hb)]
    exact ⟨c, run_steps_mem hc⟩

theorem make_dockyard_preserves_snapshot {ok : GitStep → Bool} {g : Bool} {u r : String}
    {hashed_dir : FsPath} {name : String} {fs : FS} {B : FsPath} {nm : String}
    (hlen : B.length = hashed_dir.length) (hne : B ≠ hashed_dir) (hp : B ++ [nm] ∈ fs) :
    B ++ [nm] ∈ (make_dockyard ok g u r hashed_dir name fs).fs := by
  by_cases hb : pexists fs hashed_dir
  · by_cases ho : pexists fs (hashed_dir ++ [name])
    · rw [make_dockyard_reuse hb ho]
      exact hp
    · have ho' : pexists fs (hashed_dir ++ [name]) = false := by simpa using ho
      cases hl : listdir fs hashed_dir with
      | nil =>
        rw [make_dockyard_empty_bucket hb ho' hl]
        exact hp
      | cons old tl =>
        rw [make_dockyard_rename hb ho' hl]
        refine mem_renameFS_other hp (by simp [hlen]) ?_
        intro heq
        exact hne (List.append_inj heq (by rw [hlen])).1
  · rw [make_dockyard_clone_fs (by simpa using hb)]
    exact run_steps_mem hp

theorem make_dockyard_good {ok : GitStep → Bool} {g : Bool} {u r : String}
    {hashed_dir : FsPath} {name : String} {fs : FS}
    (h1 : (make_dockyard ok g u r hashed_dir name fs).status ≠ .fetchFailed)
    (h2 : (make_dockyard ok g u r hashed_dir name fs).status ≠ .indexError) :
    hashed_dir ∈ (make_dockyard ok g u r hashed_dir name fs).fs ∧
    hashed_dir ++ [name] ∈ (make_dockyard ok g u r hashed_dir name fs).fs := by
  by_cases hb : pexists fs hashed_dir
  · by_cases ho : pexists fs (hashed_dir ++ [name])
    · rw [make_dockyard_reuse hb ho]
      exact ⟨pexists_iff.mp hb, pexists_iff.mp ho⟩
    · have ho' : pexists fs (hashed_dir ++ [name]) = false := by simpa using ho
      cases hl : listdir fs hashed_dir with
      | nil =>
        rw [make_dockyard_empty_bucket hb ho' hl] at h2
        exact absurd rfl h2
      | cons old tl =>
        rw [make_dockyard_rename hb ho' hl]
        have hsrc : hashed_dir ++ [old] ∈ fs :=
          mem_listdir.mp (by rw [hl]; exact List.mem_cons_self _ _)
        exact ⟨mem_renameFS_short (pexists_iff.mp hb) (by simp),
          mem_renameFS_src hsrc⟩
  · have hb' : pexists fs hashed_dir = false := by simpa using hb
    by_cases hs : (run_steps ok fs (clone_git_repo_steps g u r (hashed_dir ++ [name]))).2.1
    · rw [make_dockyard_clone_fs hb']
      have := run_steps_clone_mem hs
      exact ⟨by simpa using this.2, this.1⟩
    · rw [make_dockyard_clone_status hb'] at h1
      have hs' : (run_steps ok fs
          (clone_git_repo_steps g u r (hashed_dir ++ [name]))).2.1 = false := by
        simpa using hs
      rw [hs'] at h1
      simp at h1

theorem make_dockyard_no_fetch {ok : GitStep → Bool} {g : Bool} {u r : String}
    {hashed_dir : FsPath} {name : String} {fs : FS}
    (hb : hashed_dir ∈ fs) (hc : ∃ c, hashed_dir ++ [c] ∈ fs) :
    (make_dockyard ok g u r hashed_dir name fs).trace = [] ∧
    ((make_dockyard ok g u r hashed_dir name fs).status = .renamed ∨
     (make_dockyard ok g u r hashed_dir name fs).status = .reused) := by
  have hb' : pexists fs hashed_dir = true := pexists_iff.mpr hb
  by_cases ho : pexists fs (hashed_dir ++ [name])
  · rw [make_dockyard_reuse hb' ho]
    exact ⟨rfl, Or.inr rfl⟩
  · have ho' : pexists fs (hashed_dir ++ [name]) = false := by simpa using ho
    obtain ⟨c, hcm⟩ := hc
    cases hl : listdir fs hashed_dir with
    | nil =>
      have := mem_listdir.mpr hcm
      rw [hl] at this
      exact absurd this (List.not_mem_nil _)
    | cons old tl =>
      rw [make_dockyard_rename hb' ho' hl]
      exact ⟨rfl, Or.inl rfl⟩

/-! ## Invariant lemmas for `sync` -/

theorem sync_preserves_good {ok : GitStep → Bool} {g : Bool} {L : Nat} :
    ∀ {infos : List CloneInformation} {fs : FS} {d : FsPath},
      (∀ ci ∈ infos, ci.hashed_dir.length = L) → d.length = L →
      d ∈ fs → (∃ c, d ++ [c] ∈ fs) →
      d ∈ (sync ok g infos fs).fs ∧ ∃ c, d ++ [c] ∈ (sync ok g infos fs).fs
  | [], _, _, _, _, hd, hc => ⟨hd, hc⟩
  | ci :: rest, fs, d, hlen, hdlen, hd, hc => by
    have h1 : ci.hashed_dir.length = L := hlen ci (List.mem_cons_self _ _)
    have hd' : d ∈ (make_dockyard ok g ci.url ci.ref ci.hashed_dir ci.name fs).fs :=
      make_dockyard_preserves_bucket (by omega) hd
    have hc' : ∃ c, d ++ [c] ∈ (make_dockyard ok g ci.url ci.ref ci.hashed_dir ci.name fs).fs := by
      obtain ⟨c, hcm⟩ := hc
      exact make_dockyard_preserves_child (by omega) hcm
    exact @sync_preserves_good ok g L rest _ d
      (fun cj hj => hlen cj (List.mem_cons_of_mem _ hj)) hdlen hd' hc'

theorem sync_preserves_snapshot {ok : GitStep → Bool} {g : Bool} {L : Nat} :
    ∀ {infos : List CloneInformation} {fs : FS} {B : FsPath} {nm : String},
      (∀ ci ∈ infos, ci.hashed_dir.length = L) → B.length = L →
      (∀ ci ∈ infos, B ≠ ci.hashed_dir) →
      B ++ [nm] ∈ fs → B ++ [nm] ∈ (sync ok g infos fs).fs
  | [], _, _, _, _, _, _, hp => hp
  | ci :: rest, fs, B, nm, hlen, hblen, hne, hp => by
    have h1 : ci.hashed_dir.length = L := hlen ci (List.mem_cons_self _ _)
    have hp' : B ++ [nm] ∈ (make_dockyard ok g ci.url ci.ref ci.hashed_dir ci.name fs).fs :=
      make_dockyard_preserves_snapshot (by omega) (hne ci (List.mem_cons_self _ _)) hp
    exact @sync_preserves_snapshot ok g L rest _ B nm
      (fun cj hj => hlen cj (List.mem_cons_of_mem _ hj))
      hblen (fun cj hj => hne cj (List.mem_cons_of_mem _ hj)) hp'

theorem sync_good_all {ok : GitStep → Bool} {g : Bool} {L : Nat} :
    ∀ {infos : List CloneInformation} {fs : FS},
      (∀ ci ∈ infos, ci.hashed_dir.length = L) →
      (∀ st ∈ (sync ok g infos fs).statuses,
        st ≠ MDStatus.fetchFailed ∧ st ≠ MDStatus.indexError) →
      ∀ ci ∈ infos,
        ci.hashed_dir ∈ (sync ok g infos fs).fs ∧
        ∃ c, ci.hashed_dir ++ [c] ∈ (sync ok g infos fs).fs
  | [], _, _, _, ci, hci => absurd hci (List.not_mem_nil _)
  | ci :: rest, fs, hlen, hst, cj, hcj => by
    have hhead := hst (make_dockyard ok g ci.url ci.ref ci.hashed_dir ci.name fs).status
      (by simp [sync])
    have hgood := make_dockyard_good hhead.1 hhead.2
    rcases List.mem_cons.mp hcj with h | h
    · subst h
      have := @sync_preserves_good ok g L rest _ cj.hashed_dir
        (fun ck hk => hlen ck (List.mem_cons_of_mem _ hk))
        (hlen cj (List.mem_cons_self _ _)) hgood.1 ⟨cj.name, hgood.2⟩
      simpa [sync] using this
    · have hst' : ∀ st ∈ (sync ok g rest
          (make_dockyard ok g ci.url ci.ref ci.hashed_dir ci.name fs).fs).statuses,
          st ≠ MDStatus.fetchFailed ∧ st ≠ MDStatus.indexError := by
        intro st hstm
        exact hst st (by simp [sync, hstm])
      have := @sync_good_all ok g L rest _
        (fun ck hk => hlen ck (List.mem_cons_of_mem _ hk)) hst' cj h
      simpa [sync] using this

theorem sync_reuse_only {ok : GitStep → Bool} {g : Bool} {L : Nat} :
    ∀ {infos : List CloneInformation} {fs : FS},
      (∀ ci ∈ infos, ci.hashed_dir.length = L) →
      (∀ ci ∈ infos, ci.hashed_dir ∈ fs ∧ ∃ c, ci.hashed_dir ++ [c] ∈ fs) →
      (sync ok g infos fs).trace = [] ∧
      ∀ st ∈ (sync ok g infos fs).statuses, st = MDStatus.renamed ∨ st = MDStatus.reused
  | [], _, _, _ => ⟨rfl, by simp [sync]⟩
  | ci :: rest, fs, hlen, hgood => by
    have hg := hgood ci (List.mem_cons_self _ _)
    have hnf := @make_dockyard_no_fetch ok g ci.url ci.ref ci.hashed_dir ci.name fs
      hg.1 hg.2
    have hgood' : ∀ cj ∈ rest,
        cj.hashed_dir ∈ (make_dockyard ok g ci.url ci.ref ci.hashed_dir ci.name fs).fs ∧
        ∃ c, cj.hashed_dir ++ [c] ∈ (make_dockyard ok g ci.url ci.ref ci.hashed_dir ci.name fs).fs := by
      intro cj hj
      have h1 : ci.hashed_dir.length = L := hlen ci (List.mem_cons_self _ _)
      have h2 : cj.hashed_dir.length = L := hlen cj (List.mem_cons_of_mem _ hj)
      obtain ⟨hbj, c, hcj⟩ := hgood cj (List.mem_cons_of_mem _ hj)
      exact ⟨make_dockyard_preserves_bucket (by omega) hbj,
        make_dockyard_preserves_child (by omega) hcj⟩
    have ih := @sync_reuse_only ok g L rest _
      (fun cj hj => hlen cj (List.mem_cons_of_mem _ hj)) hgood'
    constructor
    · simp [sync, hnf.1, ih.1]
    · intro st hstm
      simp only [sync] at hstm
      rcases List.mem_cons.mp hstm with h | h
      · subst h
        exact hnf.2
      · exact ih.2 st h

theorem sync_snapshots {ok : GitStep → Bool} {g : Bool} {L : Nat} :
    ∀ {infos : List CloneInformation} {fs : FS},
      (∀ ci ∈ infos, ci.hashed_dir.length = L) →
      (infos.map fun ci => ci.hashed_dir).Nodup →
      (∀ st ∈ (sync ok g infos fs).statuses,
        st ≠ MDStatus.fetchFailed ∧ st ≠ MDStatus.indexError) →
      ∀ ci ∈ infos, ci.hashed_dir ++ [ci.name] ∈ (sync ok g infos fs).fs
  | [], _, _, _, _, ci, hci => absurd hci (List.not_mem_nil _)
  | ci :: rest, fs, hlen, hnd, hst, cj, hcj => by
    have hhead := hst (make_dockyard ok g ci.url ci.ref ci.hashed_dir ci.name fs).status
      (by simp [sync])
    have hgood := make_dockyard_good hhead.1 hhead.2
    rw [List.map_cons, List.nodup_cons] at hnd
    rcases List.mem_cons.mp hcj with h | h
    · subst h
      have hne : ∀ ck ∈ rest, cj.hashed_dir ≠ ck.hashed_dir := by
        intro ck hk heq
        exact hnd.1 (heq ▸ List.mem_map_of_mem (fun c => c.hashed_dir) hk)
      have := @sync_preserves_snapshot ok g L rest _ cj.hashed_dir cj.name
        (fun ck hk => hlen ck (List.mem_cons_of_mem _ hk))
        (hlen cj (List.mem_cons_self _ _)) hne hgood.2
      simpa [sync] using this
    · have hst' : ∀ st ∈ (sync ok g rest
          (make_dockyard ok g ci.url ci.ref ci.hashed_dir ci.name fs).fs).statuses,
          st ≠ MDStatus.fetchFailed ∧ st ≠ MDStatus.indexError := by
        intro st hstm
        exact hst st (by simp [sync, hstm])
      have := @sync_snapshots ok g L rest _
        (fun ck hk => hlen ck (List.mem_cons_of_mem _ hk)) hnd.2 hst' cj h
      simpa [sync] using this

theorem build_clone_information_length {repos : List Repo} {cache_dir : FsPath} :
    ∀ ci ∈ build_clone_information repos cache_dir,
      ci.hashed_dir.length = cache_dir.length + 1 := by
  intro ci hci
  unfold build_clone_information at hci
  obtain ⟨r, _, hr⟩ := List.mem_map.mp hci
  subst hr
  simp

/-! ## Lemmas about the pruner -/

theorem is_relative_to_child (cache_dir : FsPath) (n : String) :
    is_relative_to (cache_dir ++ [n]) cache_dir = true := by
  simp [is_relative_to, List.take_left]

theorem prune_cache_all_relative {configured : List FsPath} :
    ∀ {cached : List FsPath} {cache_dir : FsPath},
      (∀ p ∈ cached, is_relative_to p cache_dir = true) →
      prune_cache configured cached cache_dir
        = ⟨cached.filter fun p => !(configured.contains p), true⟩
  | [], _, _ => rfl
  | repo :: rest, cache_dir, h => by
    have hr := h repo (List.mem_cons_self _ _)
    have ih := @prune_cache_all_relative configured rest cache_dir
      (fun p hp => h p (List.mem_cons_of_mem _ hp))
    by_cases hc : repo ∈ configured
    · simp [prune_cache, hc, ih, List.filter_cons]
    · simp [prune_cache, hc, hr, ih, List.filter_cons]

theorem prune_cache_characterization (configured : List FsPath) :
    ∀ (cached : List FsPath) (cache_dir : FsPath),
      (∀ p ∈ (prune_cache configured cached cache_dir).deleted,
        p ∈ cached ∧ p ∉ configured ∧ is_relative_to p cache_dir = true)
      ∧ ((prune_cache configured cached cache_dir).ok = false
          ↔ ∃ p ∈ cached, p ∉ configured ∧ is_relative_to p cache_dir = false)
  | [], cache_dir => by
    constructor
    · intro p hp
      exact absurd hp (List.not_mem_nil _)
    · simp [prune_cache]
  | repo :: rest, cache_dir => by
    have ih := prune_cache_characterization configured rest cache_dir
    by_cases hcm : repo ∈ configured
    · have heq : prune_cache configured (repo :: rest) cache_dir
          = prune_cache configured rest cache_dir := by
        simp [prune_cache, hcm]
      rw [heq]
      constructor
      · intro p hp
        obtain ⟨h1, h2, h3⟩ := ih.1 p hp
        exact ⟨List.mem_cons_of_mem _ h1, h2, h3⟩
      · rw [ih.2]
        constructor
        · rintro ⟨p, hp, h2, h3⟩
          exact ⟨p, List.mem_cons_of_mem _ hp, h2, h3⟩
        · rintro ⟨p, hp, h2, h3⟩
          rcases List.mem_cons.mp hp with h | h
          · subst h
            exact absurd hcm h2
          · exact ⟨p, h, h2, h3⟩
    · by_cases hrel : is_relative_to repo cache_dir
      · have heq : prune_cache configured (repo :: rest) cache_dir
            = ⟨repo :: (prune_cache configured rest cache_dir).deleted,
               (prune_cache configured rest cache_dir).ok⟩ := by
          simp [prune_cache, hcm, hrel]
        rw [heq]
        constructor
        · intro p hp
          rcases List.mem_cons.mp hp with h | h
          · subst h
            exact ⟨List.mem_cons_self _ _, hcm, hrel⟩
          · obtain ⟨h1, h2, h3⟩ := ih.1 p h
            exact ⟨List.mem_cons_of_mem _ h1, h2, h3⟩
        · show (prune_cache configured rest cache_dir).ok = false ↔ _
          rw [ih.2]
          constructor
          · rintro ⟨p, hp, h2, h3⟩
            exact ⟨p, List.mem_cons_of_mem _ hp, h2, h3⟩
          · rintro ⟨p, hp, h2, h3⟩
            rcases List.mem_cons.mp hp with h | h
            · subst h
              rw [hrel] at h3
              cases h3
            · exact ⟨p, h, h2, h3⟩
      · have hrel' : is_relative_to repo cache_dir = false := by simpa using hrel
        have heq : prune_cache configured (repo :: rest) cache_dir
            = ⟨[], false⟩ := by
          simp [prune_cache, hcm, hrel']
        rw [heq]
        constructor
        · intro p hp
          exact absurd hp (List.not_mem_nil _)
        · simp only [true_iff]
          exact ⟨repo, List.mem_cons_self _ _, hcm, hrel'⟩

theorem filter_not_contains_length {C conf : List FsPath}
    (hCnd : C.Nodup) (hnd : conf.Nodup) (hsub : ∀ p ∈ conf, p ∈ C) :
    (C.filter fun p => !(conf.contains p)).length + conf.length = C.length := by
  have h1 : (C.filter fun p => conf.contains p).length = conf.length := by
    have hs1 : (C.filter fun p => conf.contains p) ⊆ conf := by
      intro p hp
      have := (List.mem_filter.mp hp).2
      simpa using this
    have hs2 : conf ⊆ (C.filter fun p => conf.contains p) := by
      intro p hp
      exact List.mem_filter.mpr ⟨hsub p hp, by simpa using hp⟩
    have hnd1 : (C.filter fun p => conf.contains p).Nodup := hCnd.filter _
    exact le_antisymm ((List.subperm_of_subset hnd1 hs1).length_le)
      ((List.subperm_of_subset hnd hs2).length_le)
  have h2 := List.length_eq_length_filter_add (l := C) (fun p => conf.contains p)
  simp only [Bool.decide_eq_true] at h2
  omega

/-! ## Lemmas about the `on_config` pipeline -/

theorem prune_phase_parts (mult : Int) (cache_dir : FsPath)
    (paths conf : List FsPath) (s : SyncOut) :
    (prune_phase mult cache_dir paths conf s).result = .ok paths
    ∧ (prune_phase mult cache_dir paths conf s).fs = s.fs
    ∧ (prune_phase mult cache_dir paths conf s).trace = s.trace := by
  have hall : ∀ p ∈ (listdir s.fs cache_dir).map fun n => cache_dir ++ [n],
      is_relative_to p cache_dir = true := by
    intro p hp
    obtain ⟨n, _, rfl⟩ := List.mem_map.mp hp
    exact is_relative_to_child _ _
  have hpr := @prune_cache_all_relative conf _ _ hall
  unfold prune_phase
  split
  · rw [hpr]
    exact ⟨rfl, rfl, rfl⟩
  · exact ⟨rfl, rfl, rfl⟩

theorem on_config_ok_parts {host : Host} {repos : List Repo} {mult : Int}
    {cache_dir : FsPath} {fs : FS} {paths : List FsPath}
    (h : (on_config host repos mult cache_dir fs).result = Except.ok paths) :
    ∃ major minor,
      get_git_version host.gitVersionStdout = .ok (major, minor) ∧
      paths = (build_clone_information repos cache_dir).map (fun ci => ci.hashed_dir) ∧
      (on_config host repos mult cache_dir fs).fs
        = (sync host.stepOk (git_supports_revision major minor)
            (build_clone_information repos cache_dir) fs).fs ∧
      ∀ st ∈ (sync host.stepOk (git_supports_revision major minor)
            (build_clone_information repos cache_dir) fs).statuses,
        st ≠ MDStatus.fetchFailed ∧ st ≠ MDStatus.indexError := by
  unfold on_config at h ⊢
  split at h
  · simp at h
  · simp at h
  · rename_i major minor heq
    refine ⟨major, minor, heq, ?_⟩
    by_cases hf : ((sync host.stepOk (git_supports_revision major minor)
        (build_clone_information repos cache_dir) fs).statuses).contains
        MDStatus.fetchFailed = true
    · rw [if_pos hf] at h
      simp at h
    · rw [if_neg hf] at h
      by_cases hi : ((sync host.stepOk (git_supports_revision major minor)
          (build_clone_information repos cache_dir) fs).statuses).contains
          MDStatus.indexError = true
      · rw [if_pos hi] at h
        simp at h
      · rw [if_neg hi] at h
        have hpp := prune_phase_parts mult cache_dir
          ((build_clone_information repos cache_dir).map fun ci => ci.hashed_dir)
          ((build_clone_information repos cache_dir).map fun ci => ci.hashed_dir)
          (sync host.stepOk (git_supports_revision major minor)
            (build_clone_information repos cache_dir) fs)
        rw [hpp.1] at h
        have hpaths : paths
            = (build_clone_information repos cache_dir).map fun ci => ci.hashed_dir := by
          have := h
          simp only [Except.ok.injEq] at this
          exact this.symm
        refine ⟨hpaths, ?_, ?_⟩
        · rw [if_neg hf, if_neg hi]
          exact hpp.2.1
        · intro st hst
          constructor
          · intro he
            subst he
            exact hf (List.elem_iff.mpr hst)
          · intro he
            subst he
            exact hi (List.elem_iff.mpr hst)

theorem on_config_result_ok {host : Host} {repos : List Repo} {mult : Int}
    {cache_dir : FsPath} {fs : FS} {major minor : Nat}
    (hp : get_git_version host.gitVersionStdout = .ok (major, minor))
    (hst : ∀ st ∈ (sync host.stepOk (git_supports_revision major minor)
        (build_clone_information repos cache_dir) fs).statuses,
        st ≠ MDStatus.fetchFailed ∧ st ≠ MDStatus.indexError) :
    (on_config host repos mult cache_dir fs).result
      = .ok ((build_clone_information repos cache_dir).map fun ci => ci.hashed_dir)
    ∧ (on_config host repos mult cache_dir fs).fs
      = (sync host.stepOk (git_supports_revision major minor)
          (build_clone_information repos cache_dir) fs).fs
    ∧ (on_config host repos mult cache_dir fs).trace
      = (sync host.stepOk (git_supports_revision major minor)
          (build_clone_information repos cache_dir) fs).trace := by
  have hf : ((sync host.stepOk (git_supports_revision major minor)
      (build_clone_information repos cache_dir) fs).statuses).contains
      MDStatus.fetchFailed = false := by
    rw [Bool.eq_false_iff]
    intro hx
    exact (hst _ (List.elem_iff.mp hx)).1 rfl
  have hi : ((sync host.stepOk (git_supports_revision major minor)
      (build_clone_information repos cache_dir) fs).statuses).contains
      MDStatus.indexError = false := by
    rw [Bool.eq_false_iff]
    intro hx
    exact (hst _ (List.elem_iff.mp hx)).2 rfl
  have hpp := prune_phase_parts mult cache_dir
    ((build_clone_information repos cache_dir).map fun ci => ci.hashed_dir)
    ((build_clone_information repos cache_dir).map fun ci => ci.hashed_dir)
    (sync host.stepOk (git_supports_revision major minor)
      (build_clone_information repos cache_dir) fs)
  unfold on_config
  rw [hp]
  simp only [hf, hi, Bool.false_eq_true, if_false]
  exact ⟨hpp.1, hpp.2.1, hpp.2.2⟩

/-! ## Claim theorems -/

/-- Claim C5 (confirmed): the single-command direct checkout strategy is
selected if and only if `major > 2`, or `major == 2` and `minor >= 49`;
otherwise the legacy sequence (directory creation, init, remote add, shallow
fetch, checkout) is used.  In particular 2.48 selects the legacy sequence
while 2.49 and 3.0 select the single command. -/
theorem c5_version_gate (major minor : Nat) (url ref : String) (out : FsPath) :
    (clone_git_repo_steps (git_supports_revision major minor) url ref out
        = [.cloneRevision url ref out]
      ↔ (2 < major ∨ (major = 2 ∧ 49 ≤ minor)))
    ∧ (clone_git_repo_steps (git_supports_revision major minor) url ref out
        = [.makedirs out, .gitInit out, .remoteAdd url out,
           .fetchOrigin ref out, .checkoutFetchHead out]
      ↔ ¬(2 < major ∨ (major = 2 ∧ 49 ≤ minor)))
    ∧ git_supports_revision 2 48 = false
    ∧ git_supports_revision 2 49 = true
    ∧ git_supports_revision 3 0 = true := by
  have hiff : git_supports_revision major minor = true
      ↔ (2 < major ∨ (major = 2 ∧ 49 ≤ minor)) := by
    simp only [git_supports_revision, Bool.or_eq_true, Bool.and_eq_true,
      beq_iff_eq, decide_eq_true_eq]
    tauto
  cases hval : git_supports_revision major minor
  · rw [hval] at hiff
    have hP : ¬(2 < major ∨ (major = 2 ∧ 49 ≤ minor)) := by
      rw [← hiff]
      simp
    refine ⟨?_, ?_, by decide, by decide, by decide⟩
    · simp [clone_git_repo_steps, hP]
    · simp [clone_git_repo_steps, hP]
  · rw [hval] at hiff
    have hP : 2 < major ∨ (major = 2 ∧ 49 ≤ minor) := hiff.mp rfl
    refine ⟨?_, ?_, by decide, by decide, by decide⟩
    · simp [clone_git_repo_steps, hP]
    · simp [clone_git_repo_steps, hP]

/-- Claim C5, witness: at version 2.48 the gate yields the legacy sequence. -/
theorem c5_witness :
    clone_git_repo_steps (git_supports_revision 2 48) "u" "r" ["c", "f", "lib"]
      = [.makedirs ["c", "f", "lib"], .gitInit ["c", "f", "lib"],
         .remoteAdd "u" ["c", "f", "lib"], .fetchOrigin "r" ["c", "f", "lib"],
         .checkoutFetchHead ["c", "f", "lib"]] :=
  (c5_version_gate 2 48 "u" "r" ["c", "f", "lib"]).2.1.mpr (by decide)

/-- Claim C9 (confirmed): with no invocable tool the run ends in
`toolUnavailable`; with unparseable version output it ends in
`versionUnparseable`; in both cases the run aborts with no git invocation,
no change to the filesystem and nothing pruned. -/
theorem c9_probe_errors (okf : GitStep → Bool) (repos : List Repo)
    (mult : Int) (cache_dir : FsPath) (fs : FS) :
    on_config ⟨none, okf⟩ repos mult cache_dir fs
      = ⟨.error .toolUnavailable, fs, [], []⟩
    ∧ ∀ stdout : String, parse_git_version stdout = none →
      on_config ⟨some stdout, okf⟩ repos mult cache_dir fs
        = ⟨.error .versionUnparseable, fs, [], []⟩ := by
  constructor
  · rfl
  · intro stdout hps
    show on_config ⟨some stdout, okf⟩ repos mult cache_dir fs = _
    unfold on_config get_git_version
    simp only [hps]

/-- Claim C9, witness: a probe output with no version token aborts the run
as `versionUnparseable` before any fetch. -/
theorem c9_witness :
    on_config ⟨some "flurb", fun _ => true⟩ [] 2 ["c"] []
      = ⟨.error .versionUnparseable, [], [], []⟩ :=
  (c9_probe_errors (fun _ => true) [] 2 ["c"] []).2 "flurb" (by decide)

/-- Claim C10 (confirmed): when the bucket exists, is empty, and
`bucket/name` does not exist, `make_dockyard` hits the unguarded
`os.listdir(hashed_dir)[0]` and raises `IndexError`; the exception is not
caught by `on_config`'s `CalledProcessError` handler, so the run dies with
the uncaught `IndexError`. -/
theorem c10_empty_bucket (okf : GitStep → Bool) (stdout u r name : String)
    (cache_dir : FsPath) (fs : FS) (mult : Int) (major minor : Nat)
    (hp : parse_git_version stdout = some (major, minor))
    (hb : pexists fs (cache_dir ++ [fingerprint u r]) = true)
    (hno : pexists fs (cache_dir ++ [fingerprint u r] ++ [name]) = false)
    (hempty : listdir fs (cache_dir ++ [fingerprint u r]) = []) :
    make_dockyard okf (git_supports_revision major minor) u r
        (cache_dir ++ [fingerprint u r]) name fs = ⟨fs, .indexError, []⟩
    ∧ (on_config ⟨some stdout, okf⟩ [⟨name, u, r⟩] mult cache_dir fs).result
        = .error .indexErrorUnhandled := by
  have hmd := @make_dockyard_empty_bucket okf (git_supports_revision major minor)
    u r _ _ _ hb hno hempty
  refine ⟨hmd, ?_⟩
  have hgv : get_git_version (some stdout) = .ok (major, minor) := by
    simp [get_git_version, hp]
  have hsync : sync okf (git_supports_revision major minor)
      (build_clone_information [⟨name, u, r⟩] cache_dir) fs
      = ⟨fs, [.indexError], []⟩ := by
    show sync _ _ [⟨name, u, r, cache_dir ++ [fingerprint u r]⟩] fs = _
    simp [sync, hmd]
  show (on_config ⟨some stdout, okf⟩ [⟨name, u, r⟩] mult cache_dir fs).result = _
  unfold on_config
  simp only [show get_git_version (Host.mk (some stdout) okf).gitVersionStdout
      = Except.ok (major, minor) from hgv]
  simp only [show (Host.mk (some stdout) okf).stepOk = okf from rfl, hsync]
  simp [List.contains]

/-- Claim C10, witness: a concrete empty bucket triggers the uncaught
`IndexError`. -/
theorem c10_witness :
    (on_config ⟨some "git version 2.50.0", fun _ => true⟩ [⟨"lib", "u", "r"⟩] 2 ["c"]
        [["c", fingerprint "u" "r"]]).result = .error .indexErrorUnhandled :=
  (c10_empty_bucket (fun _ => true) "git version 2.50.0" "u" "r" "lib" ["c"]
    [["c", fingerprint "u" "r"]] 2 2 50 (by decide) (by decide) (by decide)
    (by decide)).2

/-- Claim C8 (confirmed): in the legacy strategy, if any step's external
invocation fails, the overall fetch is reported as failed
(`CalledProcessError` propagates, becoming a `ConfigurationError`), and
when the directory creation step succeeded, the partially-created
destination directory is left in place. -/
theorem c8_legacy_failure (okf : GitStep → Bool) (u r : String)
    (hashed_dir : FsPath) (name : String) (fs : FS)
    (hb : pexists fs hashed_dir = false)
    (hfail : ∃ s ∈ clone_git_repo_steps false u r (hashed_dir ++ [name]),
      okf s = false) :
    (make_dockyard okf false u r hashed_dir name fs).status = .fetchFailed
    ∧ (okf (.makedirs (hashed_dir ++ [name])) = true →
        (hashed_dir ++ [name]) ∈ (make_dockyard okf false u r hashed_dir name fs).fs) := by
  have hnot : (run_steps okf fs
      (clone_git_repo_steps false u r (hashed_dir ++ [name]))).2.1 = false := by
    rw [Bool.eq_false_iff]
    intro hs
    obtain ⟨s, hsm, hsf⟩ := hfail
    have := run_steps_success_all hs s hsm
    rw [this] at hsf
    cases hsf
  constructor
  · rw [make_dockyard_clone_status hb, hnot]
    simp
  · intro hmk
    rw [make_dockyard_clone_fs hb]
    have e : clone_git_repo_steps false u r (hashed_dir ++ [name])
        = GitStep.makedirs (hashed_dir ++ [name]) ::
          [.gitInit (hashed_dir ++ [name]), .remoteAdd u (hashed_dir ++ [name]),
           .fetchOrigin r (hashed_dir ++ [name]),
           .checkoutFetchHead (hashed_dir ++ [name])] := rfl
    rw [e, run_steps_cons_fs hmk]
    exact run_steps_mem (by simp [apply_step])

/-- Claim C8, witness: a failing shallow fetch leaves the created directory
in place and reports the fetch as failed. -/
theorem c8_witness :
    (make_dockyard (fun s => !(s matches GitStep.fetchOrigin _ _)) false "u" "r"
        ["c", "f"] "lib" []).status = MDStatus.fetchFailed
    ∧ (["c", "f", "lib"] : FsPath)
        ∈ (make_dockyard (fun s => !(s matches GitStep.fetchOrigin _ _)) false "u" "r"
            ["c", "f"] "lib" []).fs := by
  have h := c8_legacy_failure (fun s => !(s matches GitStep.fetchOrigin _ _)) "u" "r"
    ["c", "f"] "lib" [] (by decide)
    ⟨.fetchOrigin "r" ["c", "f", "lib"], by decide, by decide⟩
  exact ⟨h.1, h.2 (by decide)⟩

/-- Claim C1, counterexample: a candidate equal to `cache_root` itself is
not a strict descendant of it, yet `prune_cache` raises no error and
deletes it — `Path.is_relative_to` also accepts the root itself. -/
theorem c1_counterexample :
    specStrictDescendant ["home", "cache"] ["home", "cache"] = false
    ∧ prune_cache [] [["home", "cache"]] ["home", "cache"]
        = ⟨[["home", "cache"]], true⟩ := by
  decide

/-- Claim C1 (amended): before deleting, every candidate is verified to be
relative to `cache_dir` (descendant **or equal**, via
`Path.is_relative_to`): every deleted path is an unused cache entry that is
relative to `cache_dir`, and the `PluginError` is raised exactly when some
unused candidate is not relative to `cache_dir` (that candidate and the
ones after it are not deleted; candidates processed earlier stay
deleted). -/
theorem c1_prune_guard (configured cached : List FsPath) (cache_dir : FsPath) :
    (∀ p ∈ (prune_cache configured cached cache_dir).deleted,
        p ∈ cached ∧ p ∉ configured ∧ is_relative_to p cache_dir = true)
    ∧ ((prune_cache configured cached cache_dir).ok = false
        ↔ ∃ p ∈ cached, p ∉ configured ∧ is_relative_to p cache_dir = false) :=
  prune_cache_characterization configured cached cache_dir

/-- Claim C1, witness: a cached path outside the cache root makes
`prune_cache` raise. -/
theorem c1_witness : (prune_cache [] [["other"]] ["home2"]).ok = false :=
  (c1_prune_guard [] [["other"]] ["home2"]).2.mpr
    ⟨["other"], by decide, by decide, by decide⟩

/-- Claim C4, counterexample: the fingerprint hashes the bare concatenation
`url + ref`, so the distinct pairs `("a", "bc")` and `("ab", "c")` collide
with certainty, not merely with hash-collision probability. -/
theorem c4_counterexample :
    fingerprint "a" "bc" = fingerprint "ab" "c"
    ∧ (("a", "bc") : String × String) ≠ ("ab", "c") := by
  exact ⟨rfl, by decide⟩

/-- Claim C4 (amended): the fingerprint is deterministic, and it depends
only on the concatenation `url ++ ref` — distinct pairs with equal
concatenations always collide; distinct pairs with distinct concatenations
are distinct up to SHA-256 collisions, and on the test corpus (whose
concatenations are pairwise distinct) the fingerprints are pairwise
distinct. -/
theorem c4_fingerprint (u r u' r' : String) :
    (u = u' → r = r' → fingerprint u r = fingerprint u' r')
    ∧ (u ++ r = u' ++ r' → fingerprint u r = fingerprint u' r')
    ∧ (fingerprintCorpus.map fun p => fingerprint p.1 p.2).Nodup := by
  refine ⟨?_, ?_, ?_⟩
  · rintro rfl rfl
    rfl
  · intro h
    unfold fingerprint
    rw [h]
  · decide

/-- Claim C4, witness: the concatenation characterization applied at the
colliding pair. -/
theorem c4_witness : fingerprint "a" "bc" = fingerprint "ab" "c" :=
  (c4_fingerprint "a" "bc" "ab" "c").2.1 (by decide)

/-- Claim C3, counterexample: the code computes the unused count as
`len(cached) - len(configured)`, not as the size of the set difference.
With 3 configured entries that share one bucket (same url and ref, three
names) and 7 unused cache entries, the spec-side unused set has 7 > 3 * 2
elements, yet the run prunes nothing. -/
theorem c3_counterexample :
    ((build_clone_information [⟨"a", "u", "r"⟩, ⟨"b", "u", "r"⟩, ⟨"c1", "u", "r"⟩]
        ["cache"]).map fun ci => ci.hashed_dir).length = 3
    ∧ (spec_unused
        (on_config ⟨some "git version 2.50.1", fun _ => true⟩
          [⟨"a", "u", "r"⟩, ⟨"b", "u", "r"⟩, ⟨"c1", "u", "r"⟩] 2 ["cache"]
          [["cache", "u1"], ["cache", "u2"], ["cache", "u3"], ["cache", "u4"],
           ["cache", "u5"], ["cache", "u6"], ["cache", "u7"]]).fs
        ["cache"]
        ((build_clone_information [⟨"a", "u", "r"⟩, ⟨"b", "u", "r"⟩, ⟨"c1", "u", "r"⟩]
          ["cache"]).map fun ci => ci.hashed_dir)).length = 7
    ∧ (3 : Int) * 2 < 7
    ∧ (on_config ⟨some "git version 2.50.1", fun _ => true⟩
        [⟨"a", "u", "r"⟩, ⟨"b", "u", "r"⟩, ⟨"c1", "u", "r"⟩] 2 ["cache"]
        [["cache", "u1"], ["cache", "u2"], ["cache", "u3"], ["cache", "u4"],
         ["cache", "u5"], ["cache", "u6"], ["cache", "u7"]]).pruned = []
    ∧ ((on_config ⟨some "git version 2.50.1", fun _ => true⟩
        [⟨"a", "u", "r"⟩, ⟨"b", "u", "r"⟩, ⟨"c1", "u", "r"⟩] 2 ["cache"]
        [["cache", "u1"], ["cache", "u2"], ["cache", "u3"], ["cache", "u4"],
         ["cache", "u5"], ["cache", "u6"], ["cache", "u7"]]).result
        matches Except.ok _) := by
  refine ⟨by decide, by decide, by decide, by decide, by decide⟩

/-- Claim C3 (amended): the pruner triggers iff
`len(cached) - len(configured) > len(configured) * multiplier` as the code
computes it; when every configured bucket is present in the cache listing
and the configured buckets are pairwise distinct, that count equals the
size of the spec's unused set, the threshold test agrees with the spec's,
and a triggered prune deletes exactly the unused entries with no error.  In
particular, with 3 distinct configured entries present and multiplier 2,
pruning does not trigger at 6 unused entries and does trigger at 7. -/
theorem c3_prune_threshold (fs : FS) (cache_dir : FsPath)
    (configured : List FsPath) (mult : Int)
    (hnd : configured.Nodup)
    (hcnd : ((listdir fs cache_dir).map fun n => cache_dir ++ [n]).Nodup)
    (hsub : ∀ p ∈ configured, p ∈ (listdir fs cache_dir).map fun n => cache_dir ++ [n]) :
    ((configured.length : Int) * mult
        < ((listdir fs cache_dir).length : Int) - configured.length
      ↔ (configured.length : Int) * mult
        < ((spec_unused fs cache_dir configured).length : Int))
    ∧ prune_cache configured ((listdir fs cache_dir).map fun n => cache_dir ++ [n])
        cache_dir
        = ⟨spec_unused fs cache_dir configured, true⟩ := by
  have hall : ∀ p ∈ (listdir fs cache_dir).map fun n => cache_dir ++ [n],
      is_relative_to p cache_dir = true := by
    intro p hp
    obtain ⟨n, _, rfl⟩ := List.mem_map.mp hp
    exact is_relative_to_child _ _
  have hlen := filter_not_contains_length hcnd hnd hsub
  have hmap : ((listdir fs cache_dir).map fun n => cache_dir ++ [n]).length
      = (listdir fs cache_dir).length := List.length_map _ _
  constructor
  · unfold spec_unused
    omega
  · rw [prune_cache_all_relative hall]
    rfl

/-- Claim C3, witness: with 3 distinct configured buckets present and 7
unused entries, the code's count and the spec's set difference agree and
pruning deletes exactly the unused entries. -/
theorem c3_witness :
    (((3 : Int) * 2
        < ((listdir [["c", "b1"], ["c", "b2"], ["c", "b3"], ["c", "u1"], ["c", "u2"],
            ["c", "u3"], ["c", "u4"], ["c", "u5"], ["c", "u6"], ["c", "u7"]] ["c"]).length : Int)
          - (3 : Int)
      ↔ (3 : Int) * 2
        < ((spec_unused [["c", "b1"], ["c", "b2"], ["c", "b3"], ["c", "u1"], ["c", "u2"],
            ["c", "u3"], ["c", "u4"], ["c", "u5"], ["c", "u6"], ["c", "u7"]] ["c"]
            [["c", "b1"], ["c", "b2"], ["c", "b3"]]).length : Int))) := by
  have h := (c3_prune_threshold
    [["c", "b1"], ["c", "b2"], ["c", "b3"], ["c", "u1"], ["c", "u2"],
     ["c", "u3"], ["c", "u4"], ["c", "u5"], ["c", "u6"], ["c", "u7"]] ["c"]
    [["c", "b1"], ["c", "b2"], ["c", "b3"]] 2
    (by decide) (by decide) (by decide)).1
  simpa using h

/-- Claim C2, counterexample: on a successful run the path handed back for
an entry is the bucket directory `cache_root/fingerprint` — `on_config`
appends `str(info.hashed_dir)` — not the entry's snapshot path
`cache_root/fingerprint/name`. -/
theorem c2_counterexample :
    (on_config ⟨some "git version 2.50.1", fun _ => true⟩ [⟨"lib", "u", "r"⟩] 2
        ["c"] []).result = .ok [["c", fingerprint "u" "r"]]
    ∧ specSnapshotPath ⟨"lib", "u", "r", ["c", fingerprint "u" "r"]⟩
        = ["c", fingerprint "u" "r", "lib"]
    ∧ (["c", fingerprint "u" "r"] : FsPath) ≠ ["c", fingerprint "u" "r", "lib"] := by
  refine ⟨by decide, rfl, by decide⟩

/-- Claim C2 (amended): after a successful synchronization the path handed
back per entry is the entry's bucket directory `cache_root/fingerprint`,
the parent (`dropLast`) of the snapshot path; when the configured buckets
are pairwise distinct, the snapshot itself exists at
`cache_root/fingerprint/name` in the post-synchronization filesystem. -/
theorem c2_resolved_paths (host : Host) (repos : List Repo) (mult : Int)
    (cache_dir : FsPath) (fs : FS) (paths : List FsPath)
    (hok : (on_config host repos mult cache_dir fs).result = .ok paths)
    (hnd : ((build_clone_information repos cache_dir).map fun ci => ci.hashed_dir).Nodup) :
    paths = (build_clone_information repos cache_dir).map (fun ci => ci.hashed_dir)
    ∧ ∀ ci ∈ build_clone_information repos cache_dir,
        ci.hashed_dir = (specSnapshotPath ci).dropLast
        ∧ specSnapshotPath ci ∈ (on_config host repos mult cache_dir fs).fs := by
  obtain ⟨major, minor, hgv, hpaths, hfs, hst⟩ := on_config_ok_parts hok
  refine ⟨hpaths, ?_⟩
  intro ci hci
  constructor
  · unfold specSnapshotPath
    simp
  · rw [hfs]
    exact sync_snapshots (L := cache_dir.length + 1)
      build_clone_information_length hnd hst ci hci

/-- Claim C2, witness: a concrete successful run leaves the snapshot at the
snapshot path. -/
theorem c2_witness :
    specSnapshotPath ⟨"lib", "u", "r", ["c", fingerprint "u" "r"]⟩
      ∈ (on_config ⟨some "git version 2.50.1", fun _ => true⟩ [⟨"lib", "u", "r"⟩] 2
          ["c"] []).fs :=
  ((c2_resolved_paths ⟨some "git version 2.50.1", fun _ => true⟩ [⟨"lib", "u", "r"⟩] 2
      ["c"] [] [["c", fingerprint "u" "r"]] (by decide) (by decide)).2
    ⟨"lib", "u", "r", ["c", fingerprint "u" "r"]⟩ (by decide)).2

/-- Claim C6, counterexample: a second run that only changes the entry name
performs the rename and no fetch, but the path handed back is the bucket
directory, which does not contain the new name (the claim's "resolved path
reflects the new name" fails for the handed-back path). -/
theorem c6_counterexample :
    (on_config ⟨some "git version 2.50.1", fun _ => true⟩ [⟨"new", "u", "r"⟩] 2 ["c"]
        [["c", fingerprint "u" "r"], ["c", fingerprint "u" "r", "old"]]).trace = []
    ∧ (on_config ⟨some "git version 2.50.1", fun _ => true⟩ [⟨"new", "u", "r"⟩] 2 ["c"]
        [["c", fingerprint "u" "r"], ["c", fingerprint "u" "r", "old"]]).fs
        = [["c", fingerprint "u" "r"], ["c", fingerprint "u" "r", "new"]]
    ∧ (on_config ⟨some "git version 2.50.1", fun _ => true⟩ [⟨"new", "u", "r"⟩] 2 ["c"]
        [["c", fingerprint "u" "r"], ["c", fingerprint "u" "r", "old"]]).result
        = .ok [["c", fingerprint "u" "r"]]
    ∧ (["c", fingerprint "u" "r"] : FsPath) ≠ ["c", fingerprint "u" "r", "new"] := by
  refine ⟨by decide, by decide, by decide, by decide⟩

/-- Claim C6 (amended): when the bucket exists with a sole subdirectory
`old` and `bucket/name` does not exist, the run renames `bucket/old` to
`bucket/name`, performs zero fetch invocations, and afterwards the snapshot
directory is `bucket/name`; the path handed back for the entry is the
bucket directory `cache_root/fingerprint(url, ref)`, which is independent
of the name. -/
theorem c6_rename_without_refetch (okf : GitStep → Bool) (stdout u r : String)
    (cache_dir : FsPath) (name old : String) (fs : FS) (mult : Int)
    (major minor : Nat)
    (hp : parse_git_version stdout = some (major, minor))
    (hb : pexists fs (cache_dir ++ [fingerprint u r]) = true)
    (hno : pexists fs (cache_dir ++ [fingerprint u r] ++ [name]) = false)
    (hl : listdir fs (cache_dir ++ [fingerprint u r]) = [old]) :
    (on_config ⟨some stdout, okf⟩ [⟨name, u, r⟩] mult cache_dir fs).trace = []
    ∧ (on_config ⟨some stdout, okf⟩ [⟨name, u, r⟩] mult cache_dir fs).fs
        = renameFS fs (cache_dir ++ [fingerprint u r] ++ [old])
            (cache_dir ++ [fingerprint u r] ++ [name])
    ∧ cache_dir ++ [fingerprint u r] ++ [name]
        ∈ (on_config ⟨some stdout, okf⟩ [⟨name, u, r⟩] mult cache_dir fs).fs
    ∧ (on_config ⟨some stdout, okf⟩ [⟨name, u, r⟩] mult cache_dir fs).result
        = .ok [cache_dir ++ [fingerprint u r]] := by
  have hgv : get_git_version (Host.mk (some stdout) okf).gitVersionStdout
      = .ok (major, minor) := by
    show get_git_version (some stdout) = _
    simp [get_git_version, hp]
  have hmd := @make_dockyard_rename okf (git_supports_revision major minor)
    u r _ _ _ _ _ hb hno hl
  have hsync : sync okf (git_supports_revision major minor)
      (build_clone_information [⟨name, u, r⟩] cache_dir) fs
      = ⟨renameFS fs (cache_dir ++ [fingerprint u r] ++ [old])
          (cache_dir ++ [fingerprint u r] ++ [name]), [.renamed], []⟩ := by
    show sync _ _ [⟨name, u, r, cache_dir ++ [fingerprint u r]⟩] fs = _
    simp [sync, hmd]
  have hst : ∀ st ∈ (sync okf (git_supports_revision major minor)
      (build_clone_information [⟨name, u, r⟩] cache_dir) fs).statuses,
      st ≠ MDStatus.fetchFailed ∧ st ≠ MDStatus.indexError := by
    rw [hsync]
    intro st hstm
    simp only [List.mem_singleton] at hstm
    subst hstm
    exact ⟨by decide, by decide⟩
  have hoc := @on_config_result_ok ⟨some stdout, okf⟩ [⟨name, u, r⟩] mult cache_dir fs
    major minor hgv hst
  refine ⟨?_, ?_, ?_, ?_⟩
  · rw [hoc.2.2, hsync]
  · rw [hoc.2.1, hsync]
  · rw [hoc.2.1, hsync]
    exact mem_renameFS_src (mem_listdir.mp (by rw [hl]; exact List.mem_cons_self _ _))
  · rw [hoc.1]
    show Except.ok _ = _
    simp [build_clone_information]

/-- Claim C6, witness: the concrete rename scenario. -/
theorem c6_witness :
    (on_config ⟨some "git version 2.49.0", fun _ => true⟩ [⟨"new2", "u", "r"⟩] 2 ["c"]
        [["c", fingerprint "u" "r"], ["c", fingerprint "u" "r", "old2"]]).trace = [] :=
  (c6_rename_without_refetch (fun _ => true) "git version 2.49.0" "u" "r" ["c"]
    "new2" "old2" [["c", fingerprint "u" "r"], ["c", fingerprint "u" "r", "old2"]] 2
    2 49 (by decide) (by decide) (by decide) (by decide)).1

/-- Claim C7 (confirmed): after a first synchronization pass in which every
entry succeeded, a second pass over the same entry list performs zero
external git invocations — every entry is renamed or reused, never fetched
— and any entry whose bucket and `bucket/name` both exist is reused as-is:
unchanged filesystem, fetched flag `False`, no invocation. -/
theorem c7_idempotent (ok1 ok2 : GitStep → Bool) (g1 g2 : Bool)
    (repos : List Repo) (cache_dir : FsPath) (fs : FS)
    (h1 : ∀ st ∈ (sync ok1 g1 (build_clone_information repos cache_dir) fs).statuses,
      st = MDStatus.cloned ∨ st = MDStatus.renamed ∨ st = MDStatus.reused) :
    (sync ok2 g2 (build_clone_information repos cache_dir)
        (sync ok1 g1 (build_clone_information repos cache_dir) fs).fs).trace = []
    ∧ (∀ st ∈ (sync ok2 g2 (build_clone_information repos cache_dir)
        (sync ok1 g1 (build_clone_information repos cache_dir) fs).fs).statuses,
        st = MDStatus.renamed ∨ st = MDStatus.reused)
    ∧ ∀ (fs' : FS) (ci : CloneInformation),
        pexists fs' ci.hashed_dir = true →
        pexists fs' (ci.hashed_dir ++ [ci.name]) = true →
        make_dockyard ok2 g2 ci.url ci.ref ci.hashed_dir ci.name fs'
          = ⟨fs', .reused, []⟩ := by
  have hst : ∀ st ∈ (sync ok1 g1 (build_clone_information repos cache_dir) fs).statuses,
      st ≠ MDStatus.fetchFailed ∧ st ≠ MDStatus.indexError := by
    intro st hstm
    rcases h1 st hstm with h | h | h <;> subst h <;> exact ⟨by decide, by decide⟩
  have hgood := sync_good_all (L := cache_dir.length + 1)
    build_clone_information_length hst
  have h2 := @sync_reuse_only ok2 g2 (cache_dir.length + 1)
    (build_clone_information repos cache_dir) _
    build_clone_information_length hgood
  refine ⟨h2.1, h2.2, ?_⟩
  intro fs' ci hb ho
  exact make_dockyard_reuse hb ho

/-- Claim C7, witness: a concrete clone-then-rerun performs zero
invocations on the second pass. -/
theorem c7_witness :
    (sync (fun _ => true) true (build_clone_information [⟨"lib", "u", "r"⟩] ["c"])
      (sync (fun _ => true) true (build_clone_information [⟨"lib", "u", "r"⟩] ["c"])
        []).fs).trace = [] :=
  (c7_idempotent (fun _ => true) (fun _ => true) true true [⟨"lib", "u", "r"⟩] ["c"]
    [] (by decide)).1

end Mkdockyard
